import Mathlib

/-!
Verification development for the F5-TTS Gradio front-end
(`src/f5_tts/infer/infer/ifgjs.py`).

Strings are embedded as `List Char`.  Pure helpers of the Python file are
translated as executable Lean functions; the regex split
`re.split(r"\x7b(.*?)\x7d", gen_text)` is modelled by an explicit leftmost
shortest-match scanner (`findMarker` / `reSplitAux`), and file / model / HTTP
collaborators are abstracted as function parameters or `Except` inputs.
-/

/-- Characters stripped by Python's bare `str.strip()` (the Unicode
whitespace set of `str.isspace`). -/
def isPySpace (c : Char) : Bool :=
  decide ((9 ≤ c.toNat ∧ c.toNat ≤ 13) ∨ (28 ≤ c.toNat ∧ c.toNat ≤ 32) ∨
    c.toNat = 0x85 ∨ c.toNat = 0xA0 ∨ c.toNat = 0x1680 ∨
    (0x2000 ≤ c.toNat ∧ c.toNat ≤ 0x200A) ∨ c.toNat = 0x2028 ∨ c.toNat = 0x2029 ∨
    c.toNat = 0x202F ∨ c.toNat = 0x205F ∨ c.toNat = 0x3000)

/-- Python `s.strip()`: drop leading and trailing whitespace. -/
def pyStrip (s : List Char) : List Char :=
  ((s.dropWhile isPySpace).reverse.dropWhile isPySpace).reverse

/-- Scanner for the closing brace of a `\x7b...\x7d` marker: the non-greedy
group `(.*?)` consumes up to the first `\x7d`, and `.` matches no newline.
Returns the group content and the remainder after the closing brace. -/
def findClose : List Char → Option (List Char × List Char)
  | [] => none
  | c :: cs =>
    if c = '}' then some ([], cs)
    else if c = '\n' then none
    else
      match findClose cs with
      | some (g, rest) => some (c :: g, rest)
      | none => none

/-- Leftmost match of the pattern `\x7b(.*?)\x7d` in a string: returns the
text before the match, the group content, and the remainder after it. -/
def findMarker : List Char → Option (List Char × List Char × List Char)
  | [] => none
  | c :: cs =>
    if c = '{' then
      match findClose cs with
      | some (g, rest) => some ([], g, rest)
      | none =>
        match findMarker cs with
        | some (pre, g, rest) => some (c :: pre, g, rest)
        | none => none
    else
      match findMarker cs with
      | some (pre, g, rest) => some (c :: pre, g, rest)
      | none => none

/-- `re.split` with one capturing group: alternating list of text tokens and
group tokens.  Fuel-indexed so that the definition is structural; the fuel
`s.length` always suffices because each match consumes at least two
characters. -/
def reSplitAux : Nat → List Char → List (List Char)
  | 0, s => [s]
  | n + 1, s =>
    match findMarker s with
    | none => [s]
    | some (pre, g, rest) => pre :: g :: reSplitAux n rest

/-- `re.split(r"\x7b(.*?)\x7d", s)`. -/
def reSplitMarkers (s : List Char) : List (List Char) :=
  reSplitAux s.length s

/-- One output segment of `parse_speechtypes_text`: a `{"style": ..,
"text": ..}` dictionary. -/
structure Segment where
  style : List Char
  text : List Char
deriving DecidableEq

/-- The default style `"Regular"`. -/
def regularStyle : List Char := "Regular".toList

/-- The alternating loop of `parse_speechtypes_text`: even-indexed tokens
(flag `false`) are text, odd-indexed tokens (flag `true`) are styles; text
tokens are stripped and dropped when blank, style tokens are stripped and
become the current style. -/
def processTokens : Bool → List Char → List (List Char) → List Segment
  | _, _, [] => []
  | false, cur, t :: rest =>
    if pyStrip t = [] then processTokens true cur rest
    else ⟨cur, pyStrip t⟩ :: processTokens true cur rest
  | true, _, t :: rest => processTokens false (pyStrip t) rest

/-- `parse_speechtypes_text` (ifgjs.py lines 311-333). -/
def parse_speechtypes_text (s : List Char) : List Segment :=
  processTokens false regularStyle (reSplitMarkers s)

/-- C2: on the worked example `"{Regular} Hello. {Sad} I wanted a
sandwich."` the parser returns exactly the segments
`(Regular, "Hello.")` and `(Sad, "I wanted a sandwich.")`. -/
theorem parse_speechtypes_text_example :
    parse_speechtypes_text "{Regular} Hello. {Sad} I wanted a sandwich.".toList =
      [⟨"Regular".toList, "Hello.".toList⟩,
       ⟨"Sad".toList, "I wanted a sandwich.".toList⟩] := by decide

theorem findClose_eq (cs g rest : List Char) (h : findClose cs = some (g, rest)) :
    cs = g ++ '}' :: rest := by
  induction cs generalizing g rest with
  | nil => simp [findClose] at h
  | cons c cs ih =>
    rw [findClose] at h
    by_cases hc : c = '}'
    · simp only [hc, if_pos rfl, Option.some.injEq, Prod.mk.injEq] at h
      obtain ⟨rfl, rfl⟩ := h
      simp [hc]
    · by_cases hn : c = '\n'
      · simp [hc, hn] at h
      · simp only [hc, hn, if_neg, if_false, ite_false] at h
        cases hm : findClose cs with
        | none => rw [hm] at h; simp at h
        | some pr =>
          obtain ⟨g0, r0⟩ := pr
          rw [hm] at h
          simp only [Option.some.injEq, Prod.mk.injEq] at h
          obtain ⟨rfl, rfl⟩ := h
          simp [ih _ _ hm]

theorem findMarker_eq (s pre g rest : List Char)
    (h : findMarker s = some (pre, g, rest)) :
    s = pre ++ '{' :: (g ++ '}' :: rest) := by
  induction s generalizing pre g rest with
  | nil => simp [findMarker] at h
  | cons c cs ih =>
    rw [findMarker] at h
    by_cases hc : c = '{'
    · rw [if_pos hc] at h
      cases hcl : findClose cs with
      | some pr =>
        obtain ⟨g0, r0⟩ := pr
        rw [hcl] at h
        simp only [Option.some.injEq, Prod.mk.injEq] at h
        obtain ⟨rfl, rfl, rfl⟩ := h
        simp [hc, findClose_eq _ _ _ hcl]
      | none =>
        rw [hcl] at h
        cases hm : findMarker cs with
        | none => rw [hm] at h; simp at h
        | some tr =>
          obtain ⟨p0, g0, r0⟩ := tr
          rw [hm] at h
          simp only [Option.some.injEq, Prod.mk.injEq] at h
          obtain ⟨rfl, rfl, rfl⟩ := h
          simp [ih _ _ _ hm]
    · rw [if_neg hc] at h
      cases hm : findMarker cs with
      | none => rw [hm] at h; simp at h
      | some tr =>
        obtain ⟨p0, g0, r0⟩ := tr
        rw [hm] at h
        simp only [Option.some.injEq, Prod.mk.injEq] at h
        obtain ⟨rfl, rfl, rfl⟩ := h
        simp [ih _ _ _ hm]

theorem findMarker_rest_lt (s pre g rest : List Char)
    (h : findMarker s = some (pre, g, rest)) : rest.length < s.length := by
  have he := findMarker_eq s pre g rest h
  subst he
  simp only [List.length_append, List.length_cons]
  omega

/-- Modelled from the spec's description of the parser contract: split the
string at the first `\x7b...\x7d` marker, emit the span before it (if non-blank
after trimming) with the current style, then continue after the marker with
the marker's label (whitespace-trimmed, as labels are written in the spec's
examples) as the new current style; with no marker left, the remaining span
is the last segment. -/
def specParseGo (cur : List Char) (s : List Char) : List Segment :=
  match hm : findMarker s with
  | none => if pyStrip s = [] then [] else [⟨cur, pyStrip s⟩]
  | some (pre, g, rest) =>
    (if pyStrip pre = [] then [] else [⟨cur, pyStrip pre⟩]) ++
      specParseGo (pyStrip g) rest
termination_by s.length
decreasing_by exact findMarker_rest_lt _ _ _ _ hm

/-- Spec-side segmentation: recursive marker splitting starting from the
current style `"Regular"`. -/
def specParse (s : List Char) : List Segment :=
  specParseGo regularStyle s

theorem processTokens_reSplitAux (n : Nat) :
    ∀ s cur, s.length ≤ n →
      processTokens false cur (reSplitAux n s) = specParseGo cur s := by
  induction n with
  | zero =>
    intro s cur hs
    have hnil : s = [] := List.length_eq_zero.mp (Nat.le_zero.mp hs)
    subst hnil
    rw [specParseGo]
    simp [reSplitAux, processTokens, pyStrip, findMarker]
  | succ n ih =>
    intro s cur hs
    rw [reSplitAux, specParseGo]
    cases hm : findMarker s with
    | none =>
      by_cases hp : pyStrip s = [] <;> simp [processTokens, hp]
    | some tr =>
      obtain ⟨pre, g, rest⟩ := tr
      have hlt := findMarker_rest_lt s pre g rest hm
      have hr : rest.length ≤ n := by omega
      by_cases hp : pyStrip pre = [] <;>
        simp [processTokens, hp, ih rest (pyStrip g) hr]

/-- C1: for every input string, `parse_speechtypes_text` returns exactly the
ordered segments obtained by splitting the string at every marker: the span
before the first marker (when non-blank after trimming) carries style
`"Regular"`, and each later span carries the label of the nearest preceding
marker, the current style persisting until the next marker. -/
theorem parse_speechtypes_text_eq_specParse (s : List Char) :
    parse_speechtypes_text s = specParse s :=
  processTokens_reSplitAux s.length s regularStyle (le_refl _)

theorem processTokens_text_ne_nil :
    ∀ (tokens : List (List Char)) (flag : Bool) (cur : List Char) (seg : Segment),
      seg ∈ processTokens flag cur tokens → seg.text ≠ [] := by
  intro tokens
  induction tokens with
  | nil => intro flag cur seg h; cases flag <;> simp [processTokens] at h
  | cons t rest ih =>
    intro flag cur seg h
    cases flag with
    | false =>
      rw [processTokens] at h
      by_cases hp : pyStrip t = []
      · rw [if_pos hp] at h
        exact ih _ _ _ h
      · rw [if_neg hp] at h
        rcases List.mem_cons.mp h with he | h
        · subst he; simpa using hp
        · exact ih _ _ _ h
    | true =>
      rw [processTokens] at h
      exact ih _ _ _ h

/-- C3: every segment emitted by `parse_speechtypes_text` has non-empty
text; in particular a whitespace-only span between two markers yields no
segment (the second marker merely replaces the current style). -/
theorem parse_speechtypes_text_text_ne_nil (s : List Char) (seg : Segment)
    (h : seg ∈ parse_speechtypes_text s) : seg.text ≠ [] :=
  processTokens_text_ne_nil _ _ _ _ h

/-- Witness for C3 on a concrete gap input `"{A} \x7bB} hi"`: consecutive
markers with only whitespace between them produce a single segment whose
text is non-empty. -/
theorem parse_speechtypes_text_text_ne_nil_witness :
    (⟨"B".toList, "hi".toList⟩ : Segment) ∈
        parse_speechtypes_text "{A} {B} hi".toList ∧
      (⟨"B".toList, "hi".toList⟩ : Segment).text ≠ [] :=
  ⟨by decide,
   parse_speechtypes_text_text_ne_nil "{A} {B} hi".toList _ (by decide)⟩

theorem reSplitAux_of_none (n : Nat) (s : List Char) (h : findMarker s = none) :
    reSplitAux n s = [s] := by
  cases n with
  | zero => rfl
  | succ n => rw [reSplitAux, h]

/-- C4: with no `\x7b...\x7d` marker in the input, the parser returns the single
`"Regular"` segment holding the trimmed input, or the empty list when the
input is blank. -/
theorem parse_speechtypes_text_no_marker (s : List Char)
    (h : findMarker s = none) :
    parse_speechtypes_text s =
      if pyStrip s = [] then [] else [⟨regularStyle, pyStrip s⟩] := by
  unfold parse_speechtypes_text reSplitMarkers
  rw [reSplitAux_of_none _ _ h]
  by_cases hp : pyStrip s = [] <;> simp [processTokens, hp]

/-- Witness for C4 at the concrete marker-free inputs `"  hi  "` and
`" \t "`. -/
theorem parse_speechtypes_text_no_marker_witness :
    (findMarker "  hi  ".toList = none ∧
      parse_speechtypes_text "  hi  ".toList = [⟨regularStyle, "hi".toList⟩]) ∧
    (findMarker " \t ".toList = none ∧
      parse_speechtypes_text " \t ".toList = []) := by
  refine ⟨⟨by decide, ?_⟩, ⟨by decide, ?_⟩⟩
  · rw [parse_speechtypes_text_no_marker _ (by decide)]; decide
  · rw [parse_speechtypes_text_no_marker _ (by decide)]; decide

/-- The even-indexed (text) tokens of an alternating token list, starting
with parity `flag` (`false` = next token is text). -/
def evenTokensFrom : Bool → List (List Char) → List (List Char)
  | _, [] => []
  | false, t :: rest => t :: evenTokensFrom true rest
  | true, _ :: rest => evenTokensFrom false rest

/-- Re-interleave a `re.split` token list with the consumed braces,
recovering the original string. -/
def rejoinTokens : List (List Char) → List Char
  | [] => []
  | [t] => t
  | t :: g :: rest => t ++ '{' :: (g ++ '}' :: rejoinTokens rest)

theorem rejoinTokens_reSplitAux (n : Nat) :
    ∀ s, s.length ≤ n → rejoinTokens (reSplitAux n s) = s := by
  induction n with
  | zero =>
    intro s hs
    have hnil : s = [] := List.length_eq_zero.mp (Nat.le_zero.mp hs)
    subst hnil
    rfl
  | succ n ih =>
    intro s hs
    rw [reSplitAux]
    cases hm : findMarker s with
    | none => rfl
    | some tr =>
      obtain ⟨pre, g, rest⟩ := tr
      have hlt := findMarker_rest_lt s pre g rest hm
      rw [rejoinTokens, ih rest (by omega)]
      exact (findMarker_eq s pre g rest hm).symm

theorem processTokens_map_text :
    ∀ (tokens : List (List Char)) (flag : Bool) (cur : List Char),
      (processTokens flag cur tokens).map Segment.text =
        ((evenTokensFrom flag tokens).map pyStrip).filter
          (fun t => !t.isEmpty) := by
  intro tokens
  induction tokens with
  | nil => intro flag cur; cases flag <;> rfl
  | cons t rest ih =>
    intro flag cur
    cases flag with
    | false =>
      by_cases hp : pyStrip t = []
      · simp [processTokens, evenTokensFrom, hp, ih]
      · have hne : (pyStrip t).isEmpty = false := by
          cases hq : pyStrip t with
          | nil => exact absurd hq hp
          | cons a l => rfl
        simp [processTokens, evenTokensFrom, hp, hne, ih]
    | true => simp [processTokens, evenTokensFrom, ih]

/-- C5: the `re.split` tokens are literal spans of the input (rejoining them
with the consumed braces restores the input verbatim, interior newlines and
all), and the segment texts are exactly the trimmed text spans, blanks
dropped, in input order. -/
theorem parse_speechtypes_text_spans (s : List Char) :
    rejoinTokens (reSplitMarkers s) = s ∧
      (parse_speechtypes_text s).map Segment.text =
        ((evenTokensFrom false (reSplitMarkers s)).map pyStrip).filter
          (fun t => !t.isEmpty) :=
  ⟨rejoinTokens_reSplitAux s.length s (le_refl _),
   processTokens_map_text _ _ _⟩

/-- One entry of the `speech_types` ordered dictionary of
`generate_multistyle_speech`: `{"audio": .., "ref_text": ..}`. -/
structure VoiceEntry where
  audio : List Char
  ref_text : List Char
deriving DecidableEq

/-- Lookup in the `speech_types` ordered dictionary (association list in
insertion order). -/
def odLookup (d : List (List Char × VoiceEntry)) (k : List Char) :
    Option VoiceEntry :=
  match d with
  | [] => none
  | p :: rest => if p.1 = k then some p.2 else odLookup rest k

/-- Python `k in speech_types`. -/
def odMem (d : List (List Char × VoiceEntry)) (k : List Char) : Bool :=
  (odLookup d k).isSome

/-- `speech_types[k] = v` on an `OrderedDict`: overwrite in place when the
key exists, else append. -/
def odInsert (d : List (List Char × VoiceEntry)) (k : List Char)
    (v : VoiceEntry) : List (List Char × VoiceEntry) :=
  if odMem d k then d.map (fun p => if p.1 = k then (p.1, v) else p)
  else d ++ [(k, v)]

/-- `speech_types[k]["ref_text"] = rt`: mutate the `ref_text` field of the
entry stored under `k`, leaving every audio field alone. -/
def odSetRefText (d : List (List Char × VoiceEntry)) (k : List Char)
    (rt : List Char) : List (List Char × VoiceEntry) :=
  d.map (fun p => if p.1 = k then (p.1, ⟨p.2.audio, rt⟩) else p)

/-- The dictionary-building loop of `generate_multistyle_speech` (lines
500-511): one row per speech type `(name, audio, ref_text)`; a row whose
name or audio is missing is stored under the placeholder key `"@idx@"` with
empty audio and reference text. -/
def buildSpeechTypes (idx : Nat)
    (rows : List (List Char × List Char × List Char))
    (d : List (List Char × VoiceEntry)) : List (List Char × VoiceEntry) :=
  match rows with
  | [] => d
  | (n, a, rt) :: rest =>
    if n ≠ [] ∧ a ≠ [] then
      buildSpeechTypes (idx + 1) rest (odInsert d n ⟨a, rt⟩)
    else
      buildSpeechTypes (idx + 1) rest
        (odInsert d ('@' :: (Nat.repr idx).toList ++ ['@']) ⟨[], []⟩)

/-- Style resolution of the synthesis loop (lines 524-528): a segment style
present in `speech_types` is used as is, any other style falls back to
`"Regular"`. -/
def chosenStyle (d : List (List Char × VoiceEntry)) (seg : Segment) :
    List Char :=
  if odMem d seg.style then seg.style else regularStyle

/-- One `infer` call of the synthesis loop, as observed from outside: the
style actually used and the three text arguments passed. -/
structure CallRec where
  styleUsed : List Char
  refAudio : List Char
  refText : List Char
  genText : List Char
deriving DecidableEq

/-- The per-segment synthesis loop of `generate_multistyle_speech` (lines
520-540), with `infer`'s returned processed reference text abstracted as
`f`.  Each step reads the chosen entry of the live dictionary, records the
call, and writes `f`'s output back into that entry's `ref_text`.  A lookup
failure (`"Regular"` missing from the dictionary) raises `KeyError` in
Python; the calls made before the exception are returned. -/
def multistyleLoop (f : List Char → List Char → List Char → List Char) :
    List (List Char × VoiceEntry) → List Segment → List CallRec
  | _, [] => []
  | d, seg :: rest =>
    match odLookup d (chosenStyle d seg) with
    | none => []
    | some e =>
      ⟨chosenStyle d seg, e.audio, e.ref_text, seg.text⟩ ::
        multistyleLoop f
          (odSetRefText d (chosenStyle d seg) (f e.audio e.ref_text seg.text))
          rest

/-- The dictionary state of the synthesis loop after a list of segments has
been processed. -/
def multistyleDict (f : List Char → List Char → List Char → List Char) :
    List (List Char × VoiceEntry) → List Segment →
      List (List Char × VoiceEntry)
  | d, [] => d
  | d, seg :: rest =>
    match odLookup d (chosenStyle d seg) with
    | none => d
    | some e =>
      multistyleDict f
        (odSetRefText d (chosenStyle d seg) (f e.audio e.ref_text seg.text))
        rest

theorem odLookup_odSetRefText_map_audio
    (d : List (List Char × VoiceEntry)) (k : List Char) (rt : List Char)
    (x : List Char) :
    (odLookup (odSetRefText d k rt) x).map VoiceEntry.audio =
      (odLookup d x).map VoiceEntry.audio := by
  induction d with
  | nil => rfl
  | cons p rest ih =>
    obtain ⟨pk, pv⟩ := p
    simp only [odSetRefText, List.map_cons] at *
    by_cases hk : pk = k
    · subst hk
      by_cases hx : pk = x
      · subst hx; simp [odLookup]
      · simp [odLookup, hx, ih]
    · by_cases hx : pk = x
      · subst hx; simp [odLookup, hk]
      · simp [odLookup, hk, hx, ih]

theorem odMem_odSetRefText (d : List (List Char × VoiceEntry))
    (k rt x : List Char) : odMem (odSetRefText d k rt) x = odMem d x := by
  unfold odMem
  have h := odLookup_odSetRefText_map_audio d k rt x
  cases h1 : odLookup (odSetRefText d k rt) x <;>
    cases h2 : odLookup d x <;> rw [h1, h2] at h <;> simp_all

theorem chosenStyle_odSetRefText (d : List (List Char × VoiceEntry))
    (k rt : List Char) (seg : Segment) :
    chosenStyle (odSetRefText d k rt) seg = chosenStyle d seg := by
  unfold chosenStyle
  rw [odMem_odSetRefText]

/-- C6: in the multistyle synthesis loop, provided the mandatory
`"Regular"` entry is configured, every parsed segment produces exactly one
`infer` call; a segment whose style is not among the configured speech
types is synthesized with the `"Regular"` entry's reference audio and
reference text, and a configured style uses its own entry.  The reference
audio passed always equals the one configured for the chosen style (only
`ref_text` fields are rewritten during the loop). -/
theorem multistyle_fallback_regular
    (f : List Char → List Char → List Char → List Char)
    (d : List (List Char × VoiceEntry)) (segs : List Segment)
    (hreg : odMem d regularStyle = true) (i : Nat) (hi : i < segs.length) :
    ∃ e : VoiceEntry,
      odLookup (multistyleDict f d (segs.take i)) (chosenStyle d segs[i]) =
          some e ∧
        (multistyleLoop f d segs)[i]? =
          some ⟨chosenStyle d segs[i], e.audio, e.ref_text, segs[i].text⟩ ∧
        (odLookup d (chosenStyle d segs[i])).map VoiceEntry.audio =
          some e.audio := by
  induction segs generalizing d i with
  | nil => exact absurd hi (by simp)
  | cons seg rest ih =>
    have hsome : (odLookup d (chosenStyle d seg)).isSome := by
      unfold chosenStyle
      by_cases hmem : odMem d seg.style
      · rw [if_pos hmem]; exact hmem
      · rw [if_neg hmem]; exact hreg
    cases he : odLookup d (chosenStyle d seg) with
    | none => rw [he] at hsome; simp at hsome
    | some e0 =>
      cases i with
      | zero =>
        refine ⟨e0, ?_, ?_, ?_⟩
        · simpa [multistyleDict] using he
        · simp [multistyleLoop, he]
        · simp [he]
      | succ i =>
        have hi' : i < rest.length := by simpa using hi
        have hreg' :
            odMem (odSetRefText d (chosenStyle d seg)
              (f e0.audio e0.ref_text seg.text)) regularStyle = true := by
          rw [odMem_odSetRefText]; exact hreg
        obtain ⟨e, h1, h2, h3⟩ := ih _ hreg' i hi'
        refine ⟨e, ?_, ?_, ?_⟩
        · rw [List.take_succ_cons]
          rw [multistyleDict, he]
          rw [chosenStyle_odSetRefText] at h1
          simpa using h1
        · rw [multistyleLoop, he]
          rw [chosenStyle_odSetRefText] at h2
          simpa using h2
        · rw [odLookup_odSetRefText_map_audio, chosenStyle_odSetRefText] at h3
          simpa using h3

/-- Witness for C6: a one-entry configuration holding only `"Regular"` and
a single segment with the unconfigured style `"X"`; the recorded call uses
`"Regular"` with its configured audio and reference text. -/
theorem multistyle_fallback_regular_witness :
    odMem [(regularStyle, (⟨"a.wav".toList, "ref".toList⟩ : VoiceEntry))]
        regularStyle = true ∧
      0 < ([⟨"X".toList, "hello".toList⟩] : List Segment).length ∧
      ∃ e : VoiceEntry,
        odLookup
            (multistyleDict (fun _ _ _ => [])
              [(regularStyle, ⟨"a.wav".toList, "ref".toList⟩)]
              (([⟨"X".toList, "hello".toList⟩] : List Segment).take 0))
            (chosenStyle [(regularStyle, ⟨"a.wav".toList, "ref".toList⟩)]
              (([⟨"X".toList, "hello".toList⟩] : List Segment)[0])) = some e ∧
          (multistyleLoop (fun _ _ _ => [])
              [(regularStyle, ⟨"a.wav".toList, "ref".toList⟩)]
              [⟨"X".toList, "hello".toList⟩])[0]? =
            some ⟨chosenStyle [(regularStyle, ⟨"a.wav".toList, "ref".toList⟩)]
                (([⟨"X".toList, "hello".toList⟩] : List Segment)[0]),
              e.audio, e.ref_text,
              (([⟨"X".toList, "hello".toList⟩] : List Segment)[0]).text⟩ ∧
          (odLookup [(regularStyle, ⟨"a.wav".toList, "ref".toList⟩)]
              (chosenStyle [(regularStyle, ⟨"a.wav".toList, "ref".toList⟩)]
                (([⟨"X".toList, "hello".toList⟩] : List Segment)[0]))).map
            VoiceEntry.audio = some e.audio :=
  ⟨by decide, by decide,
   multistyle_fallback_regular (fun _ _ _ => [])
     [(regularStyle, ⟨"a.wav".toList, "ref".toList⟩)]
     [⟨"X".toList, "hello".toList⟩] (by decide) 0 (by decide)⟩

/-- The chapter loop of `process_json_file` (lines 240-243): append
`f"{title} {content}"` to the accumulated chapter list, in mapping order. -/
def chapterLoop :
    List (List Char × List Char) → List (List Char) → List (List Char)
  | [], acc => acc
  | (t, c) :: rest, acc => chapterLoop rest (acc ++ [t ++ ' ' :: c])

/-- `process_json_file` (lines 226-249).  The global `chapter_list` before
the call is `old`; the file open / `json.load` step together with the
extraction of the `"chapters"` mapping is the `Except` input (`.error e`
for any raised exception `e`, `.ok chapters` for a successfully loaded
mapping, an absent key giving `.ok []` via `data.get("chapters", \x7b\x7d)`).
Returns the new `chapter_list` and the returned string. -/
def process_json_file (_old : List (List Char))
    (loaded : Except (List Char) (List (List Char × List Char))) :
    List (List Char) × List Char :=
  match loaded with
  | .error e => ([], "Error: ".toList ++ e)
  | .ok chapters =>
    if chapters.isEmpty then ([], "Error: No chapters found.".toList)
    else
      let cl := chapterLoop chapters []
      (cl, List.intercalate ['\n'] cl)

theorem chapterLoop_eq (chapters : List (List Char × List Char)) :
    ∀ acc, chapterLoop chapters acc =
      acc ++ chapters.map (fun tc => tc.1 ++ ' ' :: tc.2) := by
  induction chapters with
  | nil => intro acc; simp [chapterLoop]
  | cons tc rest ih =>
    intro acc
    obtain ⟨t, c⟩ := tc
    rw [chapterLoop, ih]
    simp

/-- C7: `process_json_file` discards the previous chapter list and, for a
non-empty chapters mapping, stores one paragraph `title ++ " " ++ content`
per chapter in mapping order and returns them joined by newlines; an empty
or absent mapping yields `"Error: No chapters found."`, and any exception
yields the empty chapter list and a message starting with `"Error: "`. -/
theorem process_json_file_spec (old : List (List Char))
    (chapters : List (List Char × List Char)) (e : List Char) :
    process_json_file old (.ok chapters) =
      (if chapters = [] then ([], "Error: No chapters found.".toList)
       else (chapters.map (fun tc => tc.1 ++ ' ' :: tc.2),
         List.intercalate ['\n']
           (chapters.map (fun tc => tc.1 ++ ' ' :: tc.2)))) ∧
    process_json_file old (.error e) = ([], "Error: ".toList ++ e) := by
  constructor
  · cases chapters with
    | nil => rfl
    | cons tc rest =>
      rw [process_json_file]
      simp [chapterLoop_eq]
  · rfl

/-- `f"chapter_{i}.wav"`. -/
def chapterFileName (i : Nat) : List Char :=
  "chapter_".toList ++ (Nat.repr i).toList ++ ".wav".toList

/-- POSIX `os.path.join` for two components. -/
def pathJoin (a b : List Char) : List Char :=
  if b.head? = some '/' then b
  else if a = [] ∨ a.getLast? = some '/' then a ++ b
  else a ++ '/' :: b

/-- The synthesis loop of `batch_tts_synthesize` (lines 264-284): iterate
the chapters with a running index; `ok idx` abstracts whether chapter
`idx`'s `infer` + file write completes without raising; on success the path
`output_dir/chapter_{idx+1}.wav` is written and recorded, on an exception
the chapter is skipped. -/
def batchLoop (ok : Nat → Bool) (outDir : List Char) :
    Nat → List (List Char) → List (List Char)
  | _, [] => []
  | idx, _ :: rest =>
    if ok idx then
      pathJoin outDir (chapterFileName (idx + 1)) ::
        batchLoop ok outDir (idx + 1) rest
    else batchLoop ok outDir (idx + 1) rest

/-- `batch_tts_synthesize` (lines 253-288): the produced file paths and the
returned string. -/
def batch_tts_synthesize (ok : Nat → Bool) (outDir : List Char)
    (chapterList : List (List Char)) : List (List Char) × List Char :=
  if chapterList.isEmpty then
    ([], "Error: No chapters available for synthesis.".toList)
  else
    (batchLoop ok outDir 0 chapterList,
     List.intercalate ['\n'] (batchLoop ok outDir 0 chapterList))

/-- Spec-side description of the written files: for every chapter index
`i` (0-based) whose synthesis succeeds, the file
`output_dir/chapter_{i+1}.wav`, in chapter order. -/
def batchPathsSpec (ok : Nat → Bool) (outDir : List Char) (n : Nat) :
    List (List Char) :=
  (List.range n).filterMap fun i =>
    if ok i then some (pathJoin outDir (chapterFileName (i + 1))) else none

theorem batchLoop_eq (ok : Nat → Bool) (outDir : List Char)
    (chapterList : List (List Char)) :
    ∀ start, batchLoop ok outDir start chapterList =
      (List.range chapterList.length).filterMap fun i =>
        if ok (start + i) then
          some (pathJoin outDir (chapterFileName (start + i + 1)))
        else none := by
  induction chapterList with
  | nil => intro start; simp [batchLoop]
  | cons c rest ih =>
    intro start
    rw [batchLoop]
    rw [List.length_cons, List.range_succ_eq_map, List.filterMap_cons,
      List.filterMap_map]
    have harg :
        ((fun i =>
            if ok (start + i) then
              some (pathJoin outDir (chapterFileName (start + i + 1)))
            else none) ∘ Nat.succ) =
          fun i =>
            if ok (start + 1 + i) then
              some (pathJoin outDir (chapterFileName (start + 1 + i + 1)))
            else none := by
      funext i
      have : start + Nat.succ i = start + 1 + i := by omega
      simp [Function.comp, this]
    rw [harg, ← ih (start + 1)]
    by_cases h : ok start <;> simp [h]

/-- C8: `batch_tts_synthesize` returns `"Error: No chapters available for
synthesis."` on an empty chapter list; otherwise it writes, for each loaded
chapter `i` (1-based) whose synthesis succeeds, the file
`output_dir/chapter_i.wav`, skipping failing chapters, and returns the
newline-joined written paths. -/
theorem batch_tts_synthesize_spec (ok : Nat → Bool) (outDir : List Char)
    (chapterList : List (List Char)) :
    batch_tts_synthesize ok outDir chapterList =
      if chapterList = [] then
        ([], "Error: No chapters available for synthesis.".toList)
      else
        (batchPathsSpec ok outDir chapterList.length,
         List.intercalate ['\n']
           (batchPathsSpec ok outDir chapterList.length)) := by
  cases chapterList with
  | nil => rfl
  | cons c rest =>
    rw [batch_tts_synthesize]
    have hb := batchLoop_eq ok outDir (c :: rest) 0
    simp only [Nat.zero_add] at hb
    simp [batchPathsSpec, hb]

/-- The mutable globals read and written by `infer`'s model-selection block
(lines 157-172), with the loaded model objects abstracted to a type `μ`. -/
structure TTSState (μ : Type) where
  pre_custom_path : List Char
  custom_ema_model : Option μ
  e2tts_ema_model : Option μ

/-- The value of the `model` argument of `infer`: the string `"F5-TTS"`,
the string `"E2-TTS"`, or the list `["Custom", ckpt_path, vocab_path]`
(the three shapes `tts_model_choice` ever holds). -/
inductive ModelChoice
  | f5tts
  | e2tts
  | custom (ckpt vocab : List Char)

/-- Outcome of the model-selection block: the updated globals, the
`ema_model` picked for inference (`none` when the cached custom model was
never loaded), and whether `load_custom` was invoked during the call. -/
structure SelectOutcome (μ : Type) where
  state : TTSState μ
  ema : Option μ
  loadedCustom : Bool

/-- The model-selection block of `infer` (lines 157-172).  `f5` is the
preloaded F5-TTS model, `e2Loader` the result of `load_e2tts()`,
`customLoader` the result of `load_custom(ckpt, vocab_path=vocab)`, and
`usingSpaces` the `USING_SPACES` flag; in Spaces the custom branch fails
its assertion before touching any global. -/
def inferModelSelect {μ : Type} (f5 e2Loader : μ)
    (customLoader : List Char → List Char → μ) (usingSpaces : Bool)
    (st : TTSState μ) : ModelChoice → Except (List Char) (SelectOutcome μ)
  | .f5tts => .ok ⟨st, some f5, false⟩
  | .e2tts =>
    match st.e2tts_ema_model with
    | none => .ok ⟨{ st with e2tts_ema_model := some e2Loader },
        some e2Loader, false⟩
    | some m => .ok ⟨st, some m, false⟩
  | .custom p v =>
    if usingSpaces then
      .error "Only official checkpoints allowed in Spaces.".toList
    else if st.pre_custom_path ≠ p then
      .ok ⟨⟨p, some (customLoader p v), st.e2tts_ema_model⟩,
        some (customLoader p v), true⟩
    else .ok ⟨st, st.custom_ema_model, false⟩

/-- C9: outside Spaces, a `["Custom", p, v]` call invokes `load_custom`
exactly when `p` differs from `pre_custom_path` at entry, and afterwards
`pre_custom_path = p` with `custom_ema_model` freshly loaded in that case
and the globals untouched otherwise; `"F5-TTS"` and `"E2-TTS"` calls leave
`pre_custom_path` and `custom_ema_model` unchanged. -/
theorem inferModelSelect_custom_cache {μ : Type} (f5 e2Loader : μ)
    (customLoader : List Char → List Char → μ) (st : TTSState μ)
    (p v : List Char) :
    (∃ r : SelectOutcome μ,
        inferModelSelect f5 e2Loader customLoader false st (.custom p v) =
            .ok r ∧
          r.loadedCustom = (if st.pre_custom_path = p then false else true) ∧
          r.state.pre_custom_path = p ∧
          r.state =
            (if st.pre_custom_path = p then st
             else ⟨p, some (customLoader p v), st.e2tts_ema_model⟩)) ∧
      inferModelSelect f5 e2Loader customLoader false st .f5tts =
        .ok ⟨st, some f5, false⟩ ∧
      (∃ r2 : SelectOutcome μ,
        inferModelSelect f5 e2Loader customLoader false st .e2tts = .ok r2 ∧
          r2.state.pre_custom_path = st.pre_custom_path ∧
          r2.state.custom_ema_model = st.custom_ema_model) := by
  refine ⟨?_, rfl, ?_⟩
  · by_cases h : st.pre_custom_path = p
    · refine ⟨⟨st, st.custom_ema_model, false⟩, ?_, ?_, ?_, ?_⟩
      · rw [inferModelSelect]
        simp [h]
      · rw [if_pos h]
      · exact h
      · rw [if_pos h]
    · refine ⟨⟨⟨p, some (customLoader p v), st.e2tts_ema_model⟩,
        some (customLoader p v), true⟩, ?_, ?_, rfl, ?_⟩
      · rw [inferModelSelect]
        simp [h]
      · rw [if_neg h]
      · rw [if_neg h]
  · cases he : st.e2tts_ema_model with
    | none =>
      exact ⟨⟨{ st with e2tts_ema_model := some e2Loader }, some e2Loader,
        false⟩, by rw [inferModelSelect, he], rfl, rfl⟩
    | some m =>
      exact ⟨⟨st, some m, false⟩, by rw [inferModelSelect, he], rfl, rfl⟩

/-- A chat message `{"role": .., "content": ..}`. -/
structure ChatMsg where
  role : List Char
  content : List Char
deriving DecidableEq

/-- Python truthiness of the optional audio path (`None` and `""` are
falsy). -/
def pyTruthyPath (audioPath : Option (List Char)) : Bool :=
  match audioPath with
  | none => false
  | some s => !s.isEmpty

/-- `process_audio_input` (lines 690-718).  `transcribe` abstracts
`preprocess_ref_audio_text(audio_path, text)[1]` and `genResponse`
abstracts `generate_response(conv_state, ...)`, each returning `.error`
when the underlying call raises; the `except` branch returns whatever the
two lists hold at that point.  Result: the new chat history, the new
conversation state, and the value for the text box. -/
def process_audio_input
    (transcribe : List Char → List Char → Except (List Char) (List Char))
    (genResponse : List ChatMsg → Except (List Char) (List Char))
    (audioPath : Option (List Char)) (text : List Char)
    (history : List (List Char × Option (List Char))) (conv : List ChatMsg) :
    List (List Char × Option (List Char)) × List ChatMsg × List Char :=
  if ¬ pyTruthyPath audioPath ∧ pyStrip text = [] then (history, conv, [])
  else
    match
      (match audioPath with
       | some ap => if ¬ ap.isEmpty then transcribe ap text else .ok text
       | none => .ok text) with
    | .error _ => (history, conv, [])
    | .ok text1 =>
      let conv1 := conv ++ [⟨"user".toList, text1⟩]
      let hist1 := history ++ [(text1, none)]
      match genResponse conv1 with
      | .error _ => (hist1, conv1, [])
      | .ok resp =>
        (history ++ [(text1, some resp)],
         conv1 ++ [⟨"assistant".toList, resp⟩], [])

/-- C10: with no audio path and whitespace-only (or empty) text,
`process_audio_input` returns the chat history and conversation state
exactly as given, appending nothing, together with an empty text box
value. -/
theorem process_audio_input_blank_frame
    (transcribe : List Char → List Char → Except (List Char) (List Char))
    (genResponse : List ChatMsg → Except (List Char) (List Char))
    (text : List Char)
    (history : List (List Char × Option (List Char))) (conv : List ChatMsg)
    (hblank : pyStrip text = []) :
    process_audio_input transcribe genResponse none text history conv =
      (history, conv, []) := by
  rw [process_audio_input, if_pos]
  exact ⟨by simp [pyTruthyPath], hblank⟩

/-- Witness for C10 at the concrete blank input `"  "` with a non-trivial
history and conversation state. -/
theorem process_audio_input_blank_frame_witness :
    pyStrip "  ".toList = [] ∧
      process_audio_input (fun _ t => .ok t) (fun _ => .ok "yes".toList)
          none "  ".toList [("hi".toList, some "there".toList)]
          [⟨"system".toList, "prompt".toList⟩] =
        ([("hi".toList, some "there".toList)],
         [⟨"system".toList, "prompt".toList⟩], []) :=
  ⟨by decide,
   process_audio_input_blank_frame (fun _ t => .ok t)
     (fun _ => .ok "yes".toList) "  ".toList
     [("hi".toList, some "there".toList)]
     [⟨"system".toList, "prompt".toList⟩] (by decide)⟩
